import Mathlib

/-!
Shallow embedding of the DLMS energy-meter API server (`server.js`, the
Express + MySQL implementation) together with proofs about its ingestion,
query, liveness and aggregation behaviour.

The two tables (`meters`, `meter_readings`) are modelled as Lean lists
inside a `DB` record; auto-increment row ids are modelled with an explicit
`next_id` counter, so list order and ids both reflect insertion order.
Timestamps are natural numbers (seconds since an epoch for reading rows,
milliseconds for the liveness check, matching `Date.now()` arithmetic in
the source); SQL `DOUBLE` values are modelled as rationals.  The
`received_at` column is server-assigned and never read by any handler
under verification, so it is not carried in the model.
-/

namespace DlmsMeterApi

/-- One element of the `readings` array of an ingestion payload; the query
handler returns exactly these five fields per reading, so the same
structure serves as the reading object of a reconstructed logical sample. -/
structure Reading where
  obis_code : String
  description : String
  value : ℚ
  unit : String
  scaler : Int
deriving DecidableEq, Repr

/-- The JSON body of `POST /api/v1/meter-readings`.  `meter_id` and
`readings` are optional because the handler validates their presence;
`device_info` is kept in its serialized form (the source stores
`JSON.stringify(device_info || \x7b\x7d)`). -/
structure Payload where
  meter_id : Option String
  location : Option String
  timestamp : Nat
  sequence : Int
  device_info : Option String
  readings : Option (List Reading)
deriving DecidableEq, Repr

/-- A row of the `meters` table. -/
structure Meter where
  meter_id : String
  location : Option String
  device_info : String
  first_seen : Nat
  last_seen : Nat
deriving DecidableEq, Repr

/-- A row of the `meter_readings` table; `id` is the auto-increment key. -/
structure ReadingRow where
  id : Nat
  meter_id : String
  timestamp : Nat
  sequence_number : Int
  obis_code : String
  description : String
  value : ℚ
  unit : String
  scaler : Int
deriving DecidableEq, Repr

/-- The database state: both tables plus the readings auto-increment counter. -/
structure DB where
  meters : List Meter
  meter_readings : List ReadingRow
  next_id : Nat
deriving DecidableEq, Repr

/-- The empty database. -/
def emptyDB : DB := { meters := [], meter_readings := [], next_id := 0 }

/-- Outcome of the ingestion handler.  `invalidPayload` is the 400
`'Invalid payload'` response, `tooManyReadings` the 400
`'Too many readings (max 100)'` response, `success n` the
`\x7bstatus:'success', readings_received: n\x7d` response. -/
inductive IngestResponse where
  | invalidPayload : IngestResponse
  | tooManyReadings : IngestResponse
  | success (readings_received : Nat) : IngestResponse
deriving DecidableEq, Repr

/-- A query handler outcome: `ok data` is a `status:'success'` JSON reply,
`error msg` a `status:'error'` reply. -/
inductive ApiResult (α : Type) where
  | ok (data : α) : ApiResult α
  | error (message : String) : ApiResult α
deriving DecidableEq, Repr

/-- JavaScript truthiness of the `meter_id` field: `!meter_id` holds when
the field is absent or the empty string. -/
def meterIdFalsy : Option String → Bool
  | none => true
  | some s => s == ""

/-- `SELECT` of the meter with a given id (`meter_id` is a unique key; the
model returns the first match). -/
def findMeter (db : DB) (mid : String) : Option Meter :=
  db.meters.find? (fun m => m.meter_id == mid)

/-- The `INSERT INTO meters ... ON DUPLICATE KEY UPDATE` statement of the
ingestion handler: insert a fresh meter with
`first_seen = last_seen = now` (both columns default to
`CURRENT_TIMESTAMP`), or update `location`, `device_info`, `last_seen` of
the existing row, leaving `first_seen` alone. -/
def upsertMeter (db : DB) (mid : String) (loc : Option String) (dev : String)
    (now : Nat) : DB :=
  if db.meters.any (fun m => m.meter_id == mid) then
    { db with meters := db.meters.map (fun m =>
        if m.meter_id == mid then
          { m with location := loc, device_info := dev, last_seen := now }
        else m) }
  else
    { db with meters := db.meters ++
        [{ meter_id := mid, location := loc, device_info := dev,
           first_seen := now, last_seen := now }] }

/-- The reading row built by one iteration of the insert loop. -/
def mkRow (i : Nat) (mid : String) (ts : Nat) (seq : Int) (r : Reading) :
    ReadingRow :=
  { id := i, meter_id := mid, timestamp := ts, sequence_number := seq,
    obis_code := r.obis_code, description := r.description, value := r.value,
    unit := r.unit, scaler := r.scaler }

/-- One `INSERT INTO meter_readings` statement: append a row carrying the
payload-level `meter_id`, `timestamp`, `sequence` and the per-reading
fields, consuming one auto-increment id. -/
def insertReading (db : DB) (mid : String) (ts : Nat) (seq : Int)
    (r : Reading) : DB :=
  { db with
      meter_readings := db.meter_readings ++ [mkRow db.next_id mid ts seq r],
      next_id := db.next_id + 1 }

/-- The `POST /api/v1/meter-readings` handler: validate
(`!meter_id || !Array.isArray(readings)`, then `readings.length > 100`),
upsert the meter, insert one row per reading, answer with the count. -/
def postMeterReadings (db : DB) (p : Payload) (now : Nat) :
    IngestResponse × DB :=
  if meterIdFalsy p.meter_id || p.readings.isNone then
    (.invalidPayload, db)
  else
    let rds := p.readings.getD []
    if rds.length > 100 then
      (.tooManyReadings, db)
    else
      let mid := p.meter_id.getD ""
      let db1 := upsertMeter db mid p.location (p.device_info.getD "\x7b\x7d") now
      let db2 := rds.foldl (fun d r => insertReading d mid p.timestamp p.sequence r) db1
      (.success rds.length, db2)

/-- `ORDER BY timestamp DESC, id DESC` as a Boolean "comes no later than"
relation on rows: `a` may precede `b` when `a` has the larger timestamp,
or equal timestamps and the larger (later-inserted) id. -/
def rowGe (a b : ReadingRow) : Bool :=
  decide (b.timestamp < a.timestamp) ||
    (a.timestamp == b.timestamp && decide (b.id ≤ a.id))

/-- Insertion step of the sort used to model SQL `ORDER BY`. -/
def insertArranged (le : α → α → Bool) (x : α) : List α → List α
  | [] => [x]
  | y :: ys => if le x y then x :: y :: ys else y :: insertArranged le x ys

/-- Insertion sort by a Boolean relation, used to model SQL `ORDER BY`
(the order key below is always a strict total order, so any sorting
algorithm yields this same list). -/
def arrange (le : α → α → Bool) : List α → List α
  | [] => []
  | x :: xs => insertArranged le x (arrange le xs)

/-- `SELECT * FROM meter_readings WHERE meter_id=? ORDER BY timestamp
DESC, id DESC LIMIT ?`. -/
def queryRows (db : DB) (mid : String) (rowLimit : Nat) : List ReadingRow :=
  (arrange rowGe (db.meter_readings.filter (fun r => r.meter_id == mid))).take
    rowLimit

/-- The five response fields the latest-samples handler copies out of a
stored row. -/
def rowReading (r : ReadingRow) : Reading :=
  { obis_code := r.obis_code, description := r.description, value := r.value,
    unit := r.unit, scaler := r.scaler }

/-- A reconstructed logical sample, `\x7btimestamp, sequence_number,
readings\x7d`. -/
structure Sample where
  timestamp : Nat
  sequence_number : Int
  readings : List Reading
deriving DecidableEq, Repr

/-- One step of the `rows.forEach` grouping loop: push the row's reading
into the sample keyed by its timestamp, creating the sample (with the
row's `sequence_number`) on first sight of that timestamp.  JavaScript
objects enumerate keys in insertion order, so the group list is kept in
first-occurrence order. -/
def addRow (acc : List Sample) (r : ReadingRow) : List Sample :=
  if acc.any (fun s => s.timestamp == r.timestamp) then
    acc.map (fun s =>
      if s.timestamp == r.timestamp then
        { s with readings := s.readings ++ [rowReading r] }
      else s)
  else
    acc ++ [{ timestamp := r.timestamp, sequence_number := r.sequence_number,
              readings := [rowReading r] }]

/-- Regroup fetched rows into logical samples (the `out` object of the
handler, read back with `Object.values`). -/
def groupByTimestamp (rows : List ReadingRow) : List Sample :=
  rows.foldl addRow []

/-- The `GET /api/v1/meters/:meterId/latest` handler with an
already-parsed sample-count `limit` (query default 1): over-fetch
`limit * 10` rows, group by timestamp, return the first `limit` groups. -/
def getLatestHandler (db : DB) (mid : String) (limit : Nat) :
    ApiResult (List Sample) :=
  .ok ((groupByTimestamp (queryRows db mid (limit * 10))).take limit)

/-- The liveness check: `(Date.now() - new Date(last)) / 60000 < 2`,
with both instants in milliseconds. -/
def isOnline (now last : Int) : Bool :=
  decide ((((now - last : Int) : ℚ) / 60000) < 2)

/-- The status string decorating each meter in the listing handler. -/
def meterStatus (now last : Int) : String :=
  if isOnline now last then "online" else "offline"

/-- The fixed active-power OBIS code of the daily-aggregate query. -/
def activePowerCode : String := "1.0.1.7.0.255"

/-- `DATE(timestamp)`: the calendar-day index of a second-resolution
timestamp. -/
def dateOf (t : Nat) : Nat := t / 86400

/-- The `WHERE timestamp >= DATE_SUB(NOW(), INTERVAL 7 DAY)` filter. -/
def windowRows (rows : List ReadingRow) (now : Nat) : List ReadingRow :=
  rows.filter (fun r => decide (now - 7 * 86400 ≤ r.timestamp))

/-- Record a grouping key, keeping keys distinct in first-occurrence
order. -/
def addKey (ks : List Nat) (t : Nat) : List Nat :=
  if t ∈ ks then ks else ks ++ [t]

/-- All grouping keys of a key sequence, distinct, in first-occurrence
order after `ks`. -/
def addKeys (ks : List Nat) (ts : List Nat) : List Nat :=
  ts.foldl addKey ks

/-- Descending order on naturals, for `ORDER BY date DESC`. -/
def natGe (a b : Nat) : Bool := decide (b ≤ a)

/-- One line of the dashboard's daily aggregate. -/
structure DailyRow where
  date : Nat
  reading_count : Nat
  avg_power : Option ℚ
deriving DecidableEq, Repr

/-- The in-window rows of one calendar date (the rows one group of the
daily-aggregate query ranges over). -/
def dateRows (rows : List ReadingRow) (now : Nat) (d : Nat) : List ReadingRow :=
  (windowRows rows now).filter (fun r => dateOf r.timestamp == d)

/-- The active-power rows of one calendar date (the rows whose `value`
enters that date's `avg_power`). -/
def dateActiveRows (rows : List ReadingRow) (now : Nat) (d : Nat) :
    List ReadingRow :=
  (dateRows rows now d).filter (fun r => r.obis_code == activePowerCode)

/-- The dashboard's daily-aggregate query: restrict to the trailing 7-day
window, group by calendar date (the distinct dates, ordered `date DESC`),
count the rows of each date and average `value` over the date's rows
whose `obis_code` is the active-power code — `AVG` of a `CASE` that is
`NULL` on every row of a group is `NULL`, modelled as `none`. -/
def dailyAggregate (rows : List ReadingRow) (now : Nat) : List DailyRow :=
  (arrange natGe (addKeys []
      ((windowRows rows now).map fun r => dateOf r.timestamp))).map fun d =>
    { date := d,
      reading_count := (dateRows rows now d).length,
      avg_power :=
        if (dateActiveRows rows now d).isEmpty then none
        else some (((dateActiveRows rows now d).map fun r => r.value).sum /
          ((dateActiveRows rows now d).length : ℚ)) }

/-- The rows the ingestion insert loop appends for a readings list,
starting at auto-increment id `i`: one `mkRow` per reading, with
consecutive ids. -/
def mkRows (mid : String) (ts : Nat) (seq : Int) (i : Nat) :
    List Reading → List ReadingRow
  | [] => []
  | r :: rs => mkRow i mid ts seq r :: mkRows mid ts seq (i + 1) rs

/-- A concrete two-reading payload used to instantiate proved properties. -/
def demoPayload : Payload :=
  { meter_id := some "M1", location := some "LAB", timestamp := 1700000000,
    sequence := 5, device_info := none,
    readings := some
      [{ obis_code := "1.0.1.7.0.255", description := "Active power+",
                   value := 1250, unit := "W", scaler := 0 },
       { obis_code := "1.0.32.7.0.255", description := "Voltage L1",
         value := 230, unit := "V", scaler := 0 }] }

/-! ### Basic lemmas about the ingestion handler -/

theorem upsertMeter_meter_readings (db : DB) (mid : String) (loc : Option String)
    (dev : String) (now : Nat) :
    (upsertMeter db mid loc dev now).meter_readings = db.meter_readings := by
  unfold upsertMeter
  split <;> rfl

theorem findMeter_upsertMeter (db : DB) (mid : String) (loc : Option String)
    (dev : String) (now : Nat) :
    findMeter (upsertMeter db mid loc dev now) mid =
      some (match findMeter db mid with
            | some m => { m with location := loc, device_info := dev, last_seen := now }
            | none => { meter_id := mid, location := loc, device_info := dev,
                        first_seen := now, last_seen := now }) := by
  unfold findMeter upsertMeter
  by_cases h : db.meters.any (fun m => m.meter_id == mid) = true
  · rw [if_pos h]
    obtain ⟨m, hm, hpm⟩ := List.any_eq_true.mp h
    have hfind : ∃ m', db.meters.find? (fun m => m.meter_id == mid) = some m' := by
      cases hf : db.meters.find? (fun m => m.meter_id == mid) with
      | none => exact absurd hpm (List.find?_eq_none.mp hf m hm)
      | some m' => exact ⟨m', rfl⟩
    obtain ⟨m', hm'⟩ := hfind
    have hkey : ∀ a : Meter,
        (if a.meter_id == mid then
           { a with location := loc, device_info := dev, last_seen := now }
         else a).meter_id = a.meter_id := by
      intro a
      split <;> rfl
    have hpres : ((fun m : Meter => m.meter_id == mid) ∘ fun m : Meter =>
        if m.meter_id == mid then
          { m with location := loc, device_info := dev, last_seen := now }
        else m) = fun m : Meter => m.meter_id == mid := by
      funext a
      simp only [Function.comp_apply]
      rw [hkey]
    simp only [List.find?_map, hpres, hm', Option.map_some']
    have hm'id := List.find?_some hm'
    simp [hm'id]
  · rw [if_neg h]
    have hnone : db.meters.find? (fun m => m.meter_id == mid) = none := by
      rw [List.find?_eq_none]
      intro x hx
      exact fun hp => h (List.any_eq_true.mpr ⟨x, hx, hp⟩)
    simp [List.find?_append, hnone, List.find?]

/-- C2: a payload with a present, non-empty `meter_id` and a readings list
of length between 1 and 100 is ingested successfully, and the response
reports `readings_received` equal to the length of the readings list (the
pure store model never fails, so the store-success proviso holds). -/
theorem ingest_success_count (db : DB) (p : Payload) (now : Nat)
    (mid : String) (rds : List Reading)
    (hm : p.meter_id = some mid) (hne : mid ≠ "")
    (hr : p.readings = some rds) (h1 : 1 ≤ rds.length) (h100 : rds.length ≤ 100) :
    (postMeterReadings db p now).1 = .success rds.length := by
  have : ¬ rds.length > 100 := Nat.not_lt.mpr h100
  simp [postMeterReadings, meterIdFalsy, hm, hne, hr, this]

/-- C2 witness at a concrete one-reading payload. -/
theorem ingest_success_count_witness :
    (postMeterReadings emptyDB
      { meter_id := some "M1", location := none, timestamp := 1000, sequence := 1,
        device_info := none,
        readings := some [{ obis_code := "1.0.1.7.0.255", description := "P",
                            value := 100, unit := "W", scaler := 0 }] } 50).1 =
      .success 1 :=
  ingest_success_count emptyDB _ 50 "M1"
    [{ obis_code := "1.0.1.7.0.255", description := "P",
       value := 100, unit := "W", scaler := 0 }]
    rfl (by decide) rfl (by decide) (by decide)

/-- C3: a payload that passes validation but carries more than 100
readings is rejected with the `TooManyReadings` error, and the stored
state is returned unchanged — no reading row and no meter upsert. -/
theorem ingest_too_many (db : DB) (p : Payload) (now : Nat)
    (mid : String) (rds : List Reading)
    (hm : p.meter_id = some mid) (hne : mid ≠ "")
    (hr : p.readings = some rds) (h : 100 < rds.length) :
    postMeterReadings db p now = (.tooManyReadings, db) := by
  simp [postMeterReadings, meterIdFalsy, hm, hne, hr, h]

/-- C3 witness at a concrete 101-reading payload. -/
theorem ingest_too_many_witness :
    postMeterReadings emptyDB
      { meter_id := some "M1", location := none, timestamp := 1000, sequence := 1,
        device_info := none,
        readings := some (List.replicate 101
          { obis_code := "1.0.1.7.0.255", description := "P",
            value := 100, unit := "W", scaler := 0 }) } 50 =
      (.tooManyReadings, emptyDB) :=
  ingest_too_many emptyDB _ 50 "M1"
    (List.replicate 101
      { obis_code := "1.0.1.7.0.255", description := "P",
        value := 100, unit := "W", scaler := 0 })
    rfl (by decide) rfl (by rw [List.length_replicate]; decide)

/-- C3 as literally quantified fails: the handler checks the `meter_id`
presence first, so a payload with 101 readings but no `meter_id` is
rejected as `InvalidPayload`, not `TooManyReadings`. -/
theorem ingest_too_many_counterexample :
    (List.replicate 101
      ({ obis_code := "1.0.1.7.0.255", description := "P", value := 0,
         unit := "W", scaler := 0 } : Reading)).length > 100 ∧
    (postMeterReadings emptyDB
      { meter_id := none, location := none, timestamp := 0, sequence := 0,
        device_info := none,
        readings := some (List.replicate 101
          { obis_code := "1.0.1.7.0.255", description := "P", value := 0,
            unit := "W", scaler := 0 }) } 0).1 = .invalidPayload ∧
    (postMeterReadings emptyDB
      { meter_id := none, location := none, timestamp := 0, sequence := 0,
        device_info := none,
        readings := some (List.replicate 101
          { obis_code := "1.0.1.7.0.255", description := "P", value := 0,
            unit := "W", scaler := 0 }) } 0).1 ≠ .tooManyReadings := by
  refine ⟨by rw [List.length_replicate]; omega, rfl, ?_⟩
  intro hc
  exact absurd hc (by decide)

/-- C4: the ingestion handler answers `InvalidPayload` exactly when
`meter_id` is absent or empty or `readings` is absent. -/
theorem ingest_invalid_iff (db : DB) (p : Payload) (now : Nat) :
    (postMeterReadings db p now).1 = .invalidPayload ↔
      (p.meter_id = none ∨ p.meter_id = some "" ∨ p.readings = none) := by
  rcases hm : p.meter_id with _ | mid <;> rcases hr : p.readings with _ | rds
  · simp [postMeterReadings, meterIdFalsy, hm, hr]
  · simp [postMeterReadings, meterIdFalsy, hm, hr]
  · simp [postMeterReadings, meterIdFalsy, hm, hr]
  · by_cases hmid : mid = ""
    · subst hmid
      simp [postMeterReadings, meterIdFalsy, hm, hr]
    · simp only [postMeterReadings, meterIdFalsy, hm, hr]
      simp [hmid]
      split <;> simp

/-- C5: an upsert for an unseen `meter_id` creates the meter with
`first_seen = last_seen =` the call's time; a second upsert for the same
id overwrites `location`, `device_info` and `last_seen` (with the latter
call's time) while preserving the existing `first_seen`. -/
theorem upsert_twice (db : DB) (mid : String)
    (l1 l2 : Option String) (d1 d2 : String) (t1 t2 : Nat) :
    (findMeter db mid = none →
       findMeter (upsertMeter db mid l1 d1 t1) mid =
         some { meter_id := mid, location := l1, device_info := d1,
                first_seen := t1, last_seen := t1 }) ∧
    (∀ m1, findMeter (upsertMeter db mid l1 d1 t1) mid = some m1 →
       findMeter (upsertMeter (upsertMeter db mid l1 d1 t1) mid l2 d2 t2) mid =
         some { meter_id := mid, location := l2, device_info := d2,
                first_seen := m1.first_seen, last_seen := t2 }) := by
  constructor
  · intro h
    rw [findMeter_upsertMeter, h]
  · intro m1 h
    rw [findMeter_upsertMeter, h]
    have hid : m1.meter_id = mid := by
      have h2 : findMeter (upsertMeter db mid l1 d1 t1) mid = some m1 := h
      unfold findMeter at h2
      have h3 := List.find?_some h2
      exact beq_iff_eq.mp h3
    simp [← hid]

/-- C10: a payload with a valid `meter_id` and an explicitly empty
readings array is accepted: the response is `success` with
`readings_received = 0`, the meter upsert is performed, and the stored
reading rows are unchanged. -/
theorem ingest_empty_readings (db : DB) (p : Payload) (now : Nat) (mid : String)
    (hm : p.meter_id = some mid) (hne : mid ≠ "") (hr : p.readings = some []) :
    postMeterReadings db p now =
      (.success 0,
        upsertMeter db mid p.location (p.device_info.getD "\x7b\x7d") now) ∧
    (postMeterReadings db p now).2.meter_readings = db.meter_readings := by
  have h : postMeterReadings db p now =
      (.success 0,
        upsertMeter db mid p.location (p.device_info.getD "\x7b\x7d") now) := by
    simp [postMeterReadings, meterIdFalsy, hm, hne, hr]
  exact ⟨h, by rw [h]; exact upsertMeter_meter_readings ..⟩

/-- C10 witness at a concrete empty-readings payload. -/
theorem ingest_empty_readings_witness :
    (postMeterReadings emptyDB
        { meter_id := some "M1", location := none, timestamp := 1000, sequence := 1,
          device_info := none, readings := some [] } 50 =
      (.success 0, upsertMeter emptyDB "M1" none "\x7b\x7d" 50)) ∧
    (postMeterReadings emptyDB
        { meter_id := some "M1", location := none, timestamp := 1000, sequence := 1,
          device_info := none, readings := some [] } 50).2.meter_readings =
      emptyDB.meter_readings :=
  ingest_empty_readings emptyDB _ 50 "M1" rfl (by decide) rfl

/-! ### Liveness and the empty-meter query -/

/-- C7: when the store holds no reading row for a meter id, the
latest-samples handler answers a success reply with an empty data array
(it never takes an error branch). -/
theorem latest_unknown_meter (db : DB) (mid : String) (limit : Nat)
    (h : db.meter_readings.filter (fun r => r.meter_id == mid) = []) :
    getLatestHandler db mid limit = .ok [] := by
  simp [getLatestHandler, queryRows, h, arrange, groupByTimestamp]

/-- C7 witness: a query against the empty database. -/
theorem latest_unknown_meter_witness :
    getLatestHandler emptyDB "M1" 1 = .ok [] :=
  latest_unknown_meter emptyDB "M1" 1 rfl

/-- C8: the liveness evaluator is the pure comparison
`now - last_seen < 2 minutes` (both in milliseconds): a meter last seen
90 seconds ago decorates as `"online"`, one idle for 3 minutes as
`"offline"`. -/
theorem isOnline_spec (now last : Int) :
    (isOnline now last = true ↔ now - last < 120000) ∧
    meterStatus now (now - 90000) = "online" ∧
    meterStatus now (now - 180000) = "offline" := by
  have h : ∀ a b : Int, isOnline a b = true ↔ a - b < 120000 := by
    intro a b
    simp only [isOnline, decide_eq_true_eq]
    rw [div_lt_iff₀ (by norm_num : (0 : ℚ) < 60000)]
    rw [show (2 : ℚ) * 60000 = ((120000 : ℤ) : ℚ) by norm_num, Int.cast_lt]
  refine ⟨h now last, ?_, ?_⟩
  · have h90 : isOnline now (now - 90000) = true :=
      (h now (now - 90000)).mpr (by omega)
    simp [meterStatus, h90]
  · have h180 : isOnline now (now - 180000) = false := by
      cases hb : isOnline now (now - 180000) with
      | false => rfl
      | true => exact absurd ((h now (now - 180000)).mp hb) (by omega)
    simp [meterStatus, h180]

/-! ### The insertion sort modelling SQL `ORDER BY` -/

theorem perm_insertArranged (le : α → α → Bool) (x : α) (l : List α) :
    List.Perm (insertArranged le x l) (x :: l) := by
  induction l with
  | nil => rfl
  | cons y ys ih =>
    simp only [insertArranged]
    split
    · rfl
    · exact (ih.cons y).trans (List.Perm.swap x y ys)

theorem perm_arrange (le : α → α → Bool) (l : List α) :
    List.Perm (arrange le l) l := by
  induction l with
  | nil => rfl
  | cons x xs ih => exact (perm_insertArranged le x _).trans (ih.cons x)

theorem mem_insertArranged {le : α → α → Bool} {x z : α} {l : List α} :
    z ∈ insertArranged le x l ↔ z = x ∨ z ∈ l := by
  rw [(perm_insertArranged le x l).mem_iff, List.mem_cons]

theorem pairwise_insertArranged {le : α → α → Bool}
    (htot : ∀ a b, le a b = true ∨ le b a = true)
    (htr : ∀ a b c, le a b = true → le b c = true → le a c = true)
    {x : α} {l : List α} (h : l.Pairwise fun a b => le a b = true) :
    (insertArranged le x l).Pairwise fun a b => le a b = true := by
  induction l with
  | nil => simp [insertArranged]
  | cons y ys ih =>
    rw [List.pairwise_cons] at h
    simp only [insertArranged]
    split
    case isTrue hxy =>
      rw [List.pairwise_cons]
      refine ⟨?_, List.pairwise_cons.mpr h⟩
      intro z hz
      rcases List.mem_cons.mp hz with rfl | hz
      · exact hxy
      · exact htr x y z hxy (h.1 z hz)
    case isFalse hxy =>
      rw [List.pairwise_cons]
      refine ⟨?_, ih h.2⟩
      intro z hz
      rcases mem_insertArranged.mp hz with rfl | hz
      · rcases htot z y with hzy | hyz
        · exact absurd hzy hxy
        · exact hyz
      · exact h.1 z hz

theorem pairwise_arrange {le : α → α → Bool}
    (htot : ∀ a b, le a b = true ∨ le b a = true)
    (htr : ∀ a b c, le a b = true → le b c = true → le a c = true)
    (l : List α) :
    (arrange le l).Pairwise fun a b => le a b = true := by
  induction l with
  | nil => exact List.Pairwise.nil
  | cons x xs ih => exact pairwise_insertArranged htot htr ih

theorem rowGe_total (a b : ReadingRow) : rowGe a b = true ∨ rowGe b a = true := by
  unfold rowGe
  rcases Nat.lt_trichotomy a.timestamp b.timestamp with h | h | h
  · right
    simp [h]
  · rcases Nat.le_total a.id b.id with hid | hid
    · right
      simp [h, hid]
    · left
      simp [h, hid]
  · left
    simp [h]

theorem rowGe_trans (a b c : ReadingRow) :
    rowGe a b = true → rowGe b c = true → rowGe a c = true := by
  unfold rowGe
  simp only [Bool.or_eq_true, Bool.and_eq_true, decide_eq_true_eq, beq_iff_eq]
  rintro (h1 | ⟨h1, h1'⟩) (h2 | ⟨h2, h2'⟩)
  · exact Or.inl (h2.trans h1)
  · exact Or.inl (h2 ▸ h1)
  · exact Or.inl (h1 ▸ h2)
  · exact Or.inr ⟨h1.trans h2, h2'.trans h1'⟩

theorem natGe_total (a b : Nat) : natGe a b = true ∨ natGe b a = true := by
  unfold natGe
  rcases Nat.le_total b a with h | h
  · exact Or.inl (by simp [h])
  · exact Or.inr (by simp [h])

theorem natGe_trans (a b c : Nat) :
    natGe a b = true → natGe b c = true → natGe a c = true := by
  unfold natGe
  simp only [decide_eq_true_eq]
  omega

/-! ### The grouping loop of the latest-samples handler -/

theorem map_timestamp_addRow (acc : List Sample) (r : ReadingRow) :
    (addRow acc r).map (fun s => s.timestamp) =
      addKey (acc.map fun s => s.timestamp) r.timestamp := by
  unfold addRow addKey
  by_cases h : acc.any (fun s => s.timestamp == r.timestamp) = true
  · rw [if_pos h]
    have hmem : r.timestamp ∈ acc.map (fun s => s.timestamp) := by
      obtain ⟨s, hs, hps⟩ := List.any_eq_true.mp h
      exact List.mem_map.mpr ⟨s, hs, beq_iff_eq.mp hps⟩
    rw [if_pos hmem, List.map_map]
    apply List.map_congr_left
    intro a _
    simp only [Function.comp_apply]
    split <;> rfl
  · rw [if_neg h]
    have hmem : r.timestamp ∉ acc.map (fun s => s.timestamp) := by
      intro hc
      obtain ⟨s, hs, hps⟩ := List.mem_map.mp hc
      exact h (List.any_eq_true.mpr ⟨s, hs, beq_iff_eq.mpr hps⟩)
    rw [if_neg hmem, List.map_append]
    rfl

theorem map_timestamp_foldl_addRow (rows : List ReadingRow) (acc : List Sample) :
    (rows.foldl addRow acc).map (fun s => s.timestamp) =
      addKeys (acc.map fun s => s.timestamp) (rows.map fun r => r.timestamp) := by
  induction rows generalizing acc with
  | nil => rfl
  | cons r rows ih =>
    rw [List.foldl_cons, ih, map_timestamp_addRow]
    rfl

theorem pairwise_gt_addKeys : ∀ (l ks : List Nat),
    l.Pairwise (fun a b => b ≤ a) → ks.Pairwise (fun a b => b < a) →
    (∀ t ∈ l, ∀ k ∈ ks, t ≤ k) →
    (addKeys ks l).Pairwise (fun a b => b < a) := by
  intro l
  induction l with
  | nil => exact fun ks _ hks _ => hks
  | cons t l ih =>
    intro ks hl hks hcross
    rw [List.pairwise_cons] at hl
    show (addKeys (addKey ks t) l).Pairwise (fun a b => b < a)
    by_cases h : t ∈ ks
    · rw [addKey, if_pos h]
      exact ih ks hl.2 hks fun t' ht' k hk =>
        hcross t' (List.mem_cons_of_mem t ht') k hk
    · rw [addKey, if_neg h]
      refine ih (ks ++ [t]) hl.2 ?_ ?_
      · rw [List.pairwise_append]
        refine ⟨hks, List.pairwise_singleton _ t, ?_⟩
        intro a ha b hb
        rw [List.mem_singleton] at hb
        rw [hb]
        exact Nat.lt_of_le_of_ne (hcross t (List.mem_cons_self t l) a ha)
          fun he => h (he ▸ ha)
      · intro t' ht' k hk
        rcases List.mem_append.mp hk with hk | hk
        · exact hcross t' (List.mem_cons_of_mem t ht') k hk
        · rw [List.mem_singleton] at hk
          rw [hk]
          exact hl.1 t' ht'

theorem mem_addKey {x t : Nat} {ks : List Nat} :
    x ∈ addKey ks t ↔ x ∈ ks ∨ x = t := by
  unfold addKey
  by_cases h : t ∈ ks
  · rw [if_pos h]
    exact ⟨Or.inl, fun hc => hc.elim id fun hx => hx ▸ h⟩
  · rw [if_neg h]
    simp

theorem mem_addKeys {x : Nat} : ∀ (l ks : List Nat),
    x ∈ addKeys ks l ↔ x ∈ ks ∨ x ∈ l := by
  intro l
  induction l with
  | nil => simp [addKeys]
  | cons t l ih =>
    intro ks
    show x ∈ addKeys (addKey ks t) l ↔ _
    rw [ih, mem_addKey, List.mem_cons]
    tauto

theorem nodup_addKeys : ∀ (l ks : List Nat), ks.Nodup → (addKeys ks l).Nodup := by
  intro l
  induction l with
  | nil => exact fun ks h => h
  | cons t l ih =>
    intro ks hks
    show (addKeys (addKey ks t) l).Nodup
    refine ih _ ?_
    unfold addKey
    by_cases h : t ∈ ks
    · rwa [if_pos h]
    · rw [if_neg h, List.nodup_append]
      refine ⟨hks, List.nodup_singleton t, ?_⟩
      intro a ha hb
      rw [List.mem_singleton] at hb
      exact h (hb ▸ ha)

theorem addKeys_const (T : Nat) : ∀ l : List Nat,
    (∀ t ∈ l, t = T) → addKeys [T] l = [T] := by
  intro l
  induction l with
  | nil => exact fun _ => rfl
  | cons t l ih =>
    intro h
    have ht : t = T := h t (List.mem_cons_self t l)
    subst ht
    show addKeys (addKey [t] t) l = [t]
    rw [addKey, if_pos (List.mem_singleton_self t)]
    exact ih fun t' ht' => h t' (List.mem_cons_of_mem t ht')

theorem find?_addRow (acc : List Sample) (r : ReadingRow) (t : Nat) :
    (addRow acc r).find? (fun s => s.timestamp == t) =
      if r.timestamp = t then
        match acc.find? (fun s => s.timestamp == t) with
        | some s => some { s with readings := s.readings ++ [rowReading r] }
        | none => some { timestamp := r.timestamp,
                         sequence_number := r.sequence_number,
                         readings := [rowReading r] }
      else acc.find? (fun s => s.timestamp == t) := by
  unfold addRow
  by_cases hany : acc.any (fun s => s.timestamp == r.timestamp) = true
  · rw [if_pos hany]
    have hpres : ((fun s : Sample => s.timestamp == t) ∘ fun s : Sample =>
        if s.timestamp == r.timestamp then
          { s with readings := s.readings ++ [rowReading r] }
        else s) = fun s : Sample => s.timestamp == t := by
      funext a
      simp only [Function.comp_apply]
      congr 1
      split <;> rfl
    rw [List.find?_map, hpres]
    by_cases hrt : r.timestamp = t
    · rw [if_pos hrt]
      cases hf : acc.find? (fun s => s.timestamp == t) with
      | none =>
        obtain ⟨s, hs, hps⟩ := List.any_eq_true.mp hany
        have : (s.timestamp == t) = true := by
          rw [beq_iff_eq] at hps ⊢
          rw [hps, hrt]
        exact absurd this (List.find?_eq_none.mp hf s hs)
      | some s =>
        have hst := List.find?_some hf
        have hsr : (s.timestamp == r.timestamp) = true := by
          rw [beq_iff_eq] at hst ⊢
          rw [hst, hrt]
        simp only [Option.map_some', Option.some.injEq]
        rw [if_pos hsr]
    · rw [if_neg hrt]
      cases hf : acc.find? (fun s => s.timestamp == t) with
      | none => rfl
      | some s =>
        have hst := List.find?_some hf
        have hsr : ¬ (s.timestamp == r.timestamp) = true := by
          rw [beq_iff_eq] at hst ⊢
          rw [hst]
          exact fun he => hrt he.symm
        simp only [Option.map_some', Option.some.injEq]
        rw [if_neg hsr]
  · rw [if_neg hany]
    rw [List.find?_append]
    by_cases hrt : r.timestamp = t
    · rw [if_pos hrt]
      have hnone : acc.find? (fun s => s.timestamp == t) = none := by
        rw [List.find?_eq_none]
        intro s hs hp
        apply hany
        refine List.any_eq_true.mpr ⟨s, hs, ?_⟩
        rw [beq_iff_eq] at hp ⊢
        rw [hp, hrt]
      rw [hnone]
      simp [List.find?, hrt]
    · rw [if_neg hrt]
      have hb : (r.timestamp == t) = false := by
        rw [beq_eq_false_iff_ne]
        exact hrt
      simp [List.find?, hb]

theorem find?_foldl_addRow (rows : List ReadingRow) (acc : List Sample) (t : Nat) :
    (rows.foldl addRow acc).find? (fun s => s.timestamp == t) =
      match acc.find? (fun s => s.timestamp == t) with
      | some s => some { s with readings := s.readings ++
          ((rows.filter fun r => r.timestamp == t).map rowReading) }
      | none =>
        match rows.find? (fun r => r.timestamp == t) with
        | some r => some { timestamp := t, sequence_number := r.sequence_number,
                           readings :=
                             (rows.filter fun r => r.timestamp == t).map rowReading }
        | none => none := by
  induction rows generalizing acc with
  | nil =>
    simp only [List.foldl_nil, List.filter_nil, List.map_nil, List.append_nil,
      List.find?_nil]
    cases hf : acc.find? (fun s => s.timestamp == t) with
    | none => rfl
    | some s => rfl
  | cons r rows ih =>
    rw [List.foldl_cons, ih, find?_addRow]
    by_cases hrt : r.timestamp = t
    · have hpr : (r.timestamp == t) = true := beq_iff_eq.mpr hrt
      rw [if_pos hrt]
      have hfilt : List.filter (fun x : ReadingRow => x.timestamp == t) (r :: rows) =
          r :: List.filter (fun x : ReadingRow => x.timestamp == t) rows := by
        rw [List.filter_cons, if_pos hpr]
      have hfind : List.find? (fun x : ReadingRow => x.timestamp == t) (r :: rows) =
          some r := List.find?_cons_of_pos _ hpr
      rw [hfilt, hfind]
      cases hf : acc.find? (fun s => s.timestamp == t) with
      | some s => simp [List.append_assoc]
      | none =>
        subst hrt
        simp
    · have hprn : ¬ (r.timestamp == t) = true := fun hc => hrt (beq_iff_eq.mp hc)
      rw [if_neg hrt]
      have hfilt : List.filter (fun x : ReadingRow => x.timestamp == t) (r :: rows) =
          List.filter (fun x : ReadingRow => x.timestamp == t) rows := by
        rw [List.filter_cons, if_neg hprn]
      have hfind : List.find? (fun x : ReadingRow => x.timestamp == t) (r :: rows) =
          List.find? (fun x : ReadingRow => x.timestamp == t) rows :=
        List.find?_cons_of_neg _ hprn
      rw [hfilt, hfind]

theorem find?_of_mem_of_nodup_keys {l : List Sample} {s : Sample}
    (hs : s ∈ l) (hkeys : (l.map fun x => x.timestamp).Nodup) :
    l.find? (fun x => x.timestamp == s.timestamp) = some s := by
  induction l with
  | nil => cases hs
  | cons a l ih =>
    rw [List.map_cons, List.nodup_cons] at hkeys
    rcases List.mem_cons.mp hs with rfl | hs'
    · exact List.find?_cons_of_pos _ (by simp)
    · have hne : ¬ (a.timestamp == s.timestamp) = true := by
        intro hc
        have hmem : s.timestamp ∈ l.map (fun x : Sample => x.timestamp) :=
          List.mem_map.mpr ⟨s, hs', rfl⟩
        rw [← beq_iff_eq.mp hc] at hmem
        exact hkeys.1 hmem
      have hstep : List.find? (fun x : Sample => x.timestamp == s.timestamp) (a :: l) =
          List.find? (fun x : Sample => x.timestamp == s.timestamp) l :=
        List.find?_cons_of_neg _ hne
      rw [hstep]
      exact ih hs' hkeys.2

theorem rowGe_ts_le {a b : ReadingRow} (h : rowGe a b = true) :
    b.timestamp ≤ a.timestamp := by
  unfold rowGe at h
  simp only [Bool.or_eq_true, Bool.and_eq_true, decide_eq_true_eq,
    beq_iff_eq] at h
  rcases h with h | ⟨h, _⟩
  · exact Nat.le_of_lt h
  · exact Nat.le_of_eq h.symm

/-- C6: the latest-samples handler fetches at most `limit * 10` rows of
the meter, ordered by timestamp descending then insertion order (id)
descending, groups them by timestamp — each group keeping the
`sequence_number` of its first-seen row and collecting the fetched rows'
readings in fetched order — and returns at most `limit` logical samples
ordered most recent first. -/
theorem getLatest_spec (db : DB) (mid : String) (limit : Nat) :
    getLatestHandler db mid limit =
      .ok ((groupByTimestamp (queryRows db mid (limit * 10))).take limit) ∧
    (queryRows db mid (limit * 10)).length ≤ limit * 10 ∧
    (queryRows db mid (limit * 10)).Pairwise (fun a b => rowGe a b = true) ∧
    ((groupByTimestamp (queryRows db mid (limit * 10))).take limit).length ≤ limit ∧
    ((groupByTimestamp (queryRows db mid (limit * 10))).take limit).Pairwise
      (fun s s' => s'.timestamp < s.timestamp) ∧
    ∀ s ∈ (groupByTimestamp (queryRows db mid (limit * 10))).take limit,
      (∃ r, (queryRows db mid (limit * 10)).find?
              (fun x => x.timestamp == s.timestamp) = some r ∧
            s.sequence_number = r.sequence_number) ∧
      s.readings = ((queryRows db mid (limit * 10)).filter
              (fun x => x.timestamp == s.timestamp)).map rowReading := by
  have hsorted : (queryRows db mid (limit * 10)).Pairwise
      (fun a b => rowGe a b = true) :=
    List.Pairwise.sublist (List.take_sublist _ _)
      (pairwise_arrange rowGe_total rowGe_trans _)
  have hkeys : (groupByTimestamp (queryRows db mid (limit * 10))).map
        (fun s : Sample => s.timestamp) =
      addKeys [] ((queryRows db mid (limit * 10)).map fun r => r.timestamp) :=
    map_timestamp_foldl_addRow (queryRows db mid (limit * 10)) []
  have htsge : ((queryRows db mid (limit * 10)).map
      (fun r : ReadingRow => r.timestamp)).Pairwise (fun a b => b ≤ a) := by
    rw [List.pairwise_map]
    exact List.Pairwise.imp (fun hab => rowGe_ts_le hab) hsorted
  have hgt : (addKeys [] ((queryRows db mid (limit * 10)).map
      fun r : ReadingRow => r.timestamp)).Pairwise (fun a b => b < a) :=
    pairwise_gt_addKeys _ [] htsge List.Pairwise.nil
      (fun t _ k hk => absurd hk (List.not_mem_nil k))
  have hgroups_gt : (groupByTimestamp (queryRows db mid (limit * 10))).Pairwise
      (fun s s' : Sample => s'.timestamp < s.timestamp) := by
    rw [← hkeys] at hgt
    exact List.pairwise_map.mp hgt
  have hnodup : ((groupByTimestamp (queryRows db mid (limit * 10))).map
      fun s : Sample => s.timestamp).Nodup := by
    rw [hkeys]
    exact nodup_addKeys _ [] List.nodup_nil
  refine ⟨rfl, List.length_take_le _ _, hsorted, List.length_take_le _ _,
    List.Pairwise.sublist (List.take_sublist _ _) hgroups_gt, ?_⟩
  intro s hs
  have hsg : s ∈ groupByTimestamp (queryRows db mid (limit * 10)) :=
    List.Sublist.mem hs (List.take_sublist _ _)
  have hfound : ((queryRows db mid (limit * 10)).foldl addRow []).find?
      (fun x => x.timestamp == s.timestamp) = some s :=
    find?_of_mem_of_nodup_keys hsg hnodup
  have hchar := find?_foldl_addRow (queryRows db mid (limit * 10)) [] s.timestamp
  simp only [List.find?_nil] at hchar
  have hmatch := hchar.symm.trans hfound
  cases hr : (queryRows db mid (limit * 10)).find?
      (fun x => x.timestamp == s.timestamp) with
  | none =>
    rw [hr] at hmatch
    simp at hmatch
  | some r =>
    rw [hr] at hmatch
    have hinj := Option.some.inj hmatch
    refine ⟨⟨r, rfl, ?_⟩, ?_⟩
    · rw [← hinj]
    · rw [← hinj]

/-! ### The ingestion insert loop and the ingest-query round trip -/

theorem upsertMeter_next_id (db : DB) (mid : String) (loc : Option String)
    (dev : String) (now : Nat) :
    (upsertMeter db mid loc dev now).next_id = db.next_id := by
  unfold upsertMeter
  split <;> rfl

theorem foldl_insertReading (rds : List Reading) (db : DB) (mid : String)
    (ts : Nat) (seq : Int) :
    rds.foldl (fun d r => insertReading d mid ts seq r) db =
      { meters := db.meters,
        meter_readings := db.meter_readings ++ mkRows mid ts seq db.next_id rds,
        next_id := db.next_id + rds.length } := by
  induction rds generalizing db with
  | nil => simp [mkRows]
  | cons r rs ih =>
    rw [List.foldl_cons, ih]
    simp only [insertReading, mkRows, List.append_assoc, List.singleton_append,
      List.length_cons, DB.mk.injEq]
    exact ⟨trivial, trivial, by omega⟩

theorem mkRows_length (mid : String) (ts : Nat) (seq : Int) :
    ∀ (rds : List Reading) (i : Nat), (mkRows mid ts seq i rds).length = rds.length := by
  intro rds
  induction rds with
  | nil => intro i; rfl
  | cons r rs ih =>
    intro i
    simp [mkRows, ih]

theorem mkRows_mem (mid : String) (ts : Nat) (seq : Int) :
    ∀ (rds : List Reading) (i : Nat) (row : ReadingRow),
      row ∈ mkRows mid ts seq i rds → row.meter_id = mid ∧ row.timestamp = ts := by
  intro rds
  induction rds with
  | nil =>
    intro i row h
    cases h
  | cons r rs ih =>
    intro i row h
    rcases List.mem_cons.mp h with rfl | h
    · exact ⟨rfl, rfl⟩
    · exact ih (i + 1) row h

theorem mkRows_map_rowReading (mid : String) (ts : Nat) (seq : Int) :
    ∀ (rds : List Reading) (i : Nat),
      (mkRows mid ts seq i rds).map rowReading = rds := by
  intro rds
  induction rds with
  | nil => intro i; rfl
  | cons r rs ih =>
    intro i
    simp [mkRows, ih, rowReading, mkRow]

theorem addKeys_nil_const (T : Nat) (l : List Nat) (hne : l ≠ [])
    (h : ∀ t ∈ l, t = T) : addKeys [] l = [T] := by
  cases l with
  | nil => exact absurd rfl hne
  | cons t ts =>
    have ht : t = T := h t (List.mem_cons_self t ts)
    show addKeys (addKey [] t) ts = [T]
    rw [addKey, if_neg (List.not_mem_nil t), List.nil_append, ht]
    exact addKeys_const T ts fun u hu => h u (List.mem_cons_of_mem t hu)

/-- C1: ingesting a sample with timestamp `T` and `N` distinct OBIS codes
(`1 ≤ N ≤ 10`, the over-fetch budget) into a store holding no rows for
that meter, then querying latest-samples for it with sample count 1,
returns exactly one logical sample whose timestamp is `T` and whose
readings contain every ingested reading. -/
theorem ingest_then_latest (db : DB) (p : Payload) (now : Nat)
    (mid : String) (rds : List Reading)
    (hm : p.meter_id = some mid) (hne : mid ≠ "") (hr : p.readings = some rds)
    (hfresh : db.meter_readings.filter (fun r => r.meter_id == mid) = [])
    (h1 : 1 ≤ rds.length) (h10 : rds.length ≤ 10)
    (hdist : (rds.map fun r => r.obis_code).Nodup) :
    (postMeterReadings db p now).1 = .success rds.length ∧
    ∃ s : Sample,
      getLatestHandler (postMeterReadings db p now).2 mid 1 = .ok [s] ∧
      s.timestamp = p.timestamp ∧
      ∀ r ∈ rds, r ∈ s.readings := by
  have h100 : ¬ rds.length > 100 := by omega
  have hpost : postMeterReadings db p now =
      (.success rds.length,
       rds.foldl (fun d r => insertReading d mid p.timestamp p.sequence r)
         (upsertMeter db mid p.location (p.device_info.getD "\x7b\x7d") now)) := by
    simp [postMeterReadings, meterIdFalsy, hm, hne, hr, h100]
  have hrows : (postMeterReadings db p now).2.meter_readings =
      db.meter_readings ++ mkRows mid p.timestamp p.sequence db.next_id rds := by
    rw [hpost]
    show (rds.foldl (fun d r => insertReading d mid p.timestamp p.sequence r)
        (upsertMeter db mid p.location (p.device_info.getD "\x7b\x7d") now)).meter_readings = _
    rw [foldl_insertReading]
    rw [show (upsertMeter db mid p.location (p.device_info.getD "\x7b\x7d")
        now).meter_readings = db.meter_readings from upsertMeter_meter_readings ..]
    rw [show (upsertMeter db mid p.location (p.device_info.getD "\x7b\x7d")
        now).next_id = db.next_id from upsertMeter_next_id ..]
  have hfilter : (postMeterReadings db p now).2.meter_readings.filter
      (fun r => r.meter_id == mid) =
      mkRows mid p.timestamp p.sequence db.next_id rds := by
    rw [hrows, List.filter_append, hfresh, List.nil_append]
    apply List.filter_eq_self.mpr
    intro row hrow
    exact beq_iff_eq.mpr
      (mkRows_mem mid p.timestamp p.sequence rds db.next_id row hrow).1
  have hperm : List.Perm (arrange rowGe (mkRows mid p.timestamp p.sequence db.next_id rds))
      (mkRows mid p.timestamp p.sequence db.next_id rds) := perm_arrange ..
  have hlen : (arrange rowGe (mkRows mid p.timestamp p.sequence db.next_id rds)).length =
      rds.length := by
    rw [hperm.length_eq, mkRows_length]
  have hquery : queryRows (postMeterReadings db p now).2 mid (1 * 10) =
      arrange rowGe (mkRows mid p.timestamp p.sequence db.next_id rds) := by
    unfold queryRows
    rw [hfilter]
    exact List.take_of_length_le (by rw [hlen]; omega)
  have hts : ∀ x ∈ arrange rowGe (mkRows mid p.timestamp p.sequence db.next_id rds),
      x.timestamp = p.timestamp := fun x hx =>
    (mkRows_mem mid p.timestamp p.sequence rds db.next_id x (hperm.mem_iff.mp hx)).2
  have hall : ∀ t ∈ (arrange rowGe (mkRows mid p.timestamp p.sequence db.next_id rds)).map
      (fun r : ReadingRow => r.timestamp), t = p.timestamp := by
    intro t ht
    obtain ⟨x, hx, rfl⟩ := List.mem_map.mp ht
    exact hts x hx
  have hmapne : (arrange rowGe (mkRows mid p.timestamp p.sequence db.next_id rds)).map
      (fun r : ReadingRow => r.timestamp) ≠ [] := by
    intro hc
    have hl := congrArg List.length hc
    rw [List.length_map, hlen, List.length_nil] at hl
    omega
  have hkeys : (groupByTimestamp (arrange rowGe
        (mkRows mid p.timestamp p.sequence db.next_id rds))).map
      (fun s : Sample => s.timestamp) = [p.timestamp] := by
    have hg : (groupByTimestamp (arrange rowGe
          (mkRows mid p.timestamp p.sequence db.next_id rds))).map
        (fun s : Sample => s.timestamp) =
        addKeys [] ((arrange rowGe (mkRows mid p.timestamp p.sequence
          db.next_id rds)).map fun r : ReadingRow => r.timestamp) :=
      map_timestamp_foldl_addRow _ []
    rw [hg]
    exact addKeys_nil_const p.timestamp _ hmapne hall
  have hglen : (groupByTimestamp (arrange rowGe
      (mkRows mid p.timestamp p.sequence db.next_id rds))).length = 1 := by
    have hl := congrArg List.length hkeys
    rwa [List.length_map, List.length_singleton] at hl
  obtain ⟨s, hsg⟩ := List.length_eq_one.mp hglen
  have hsts : s.timestamp = p.timestamp := by
    have hk := hkeys
    rw [hsg] at hk
    simpa using hk
  refine ⟨by rw [hpost], s, ?_, hsts, ?_⟩
  · show getLatestHandler (postMeterReadings db p now).2 mid 1 = .ok [s]
    unfold getLatestHandler
    rw [hquery, hsg]
    rfl
  · intro r hrmem
    have hfound : ((arrange rowGe (mkRows mid p.timestamp p.sequence db.next_id
        rds)).foldl addRow []).find? (fun x => x.timestamp == s.timestamp) = some s := by
      show (groupByTimestamp (arrange rowGe
          (mkRows mid p.timestamp p.sequence db.next_id rds))).find?
        (fun x => x.timestamp == s.timestamp) = some s
      rw [hsg]
      exact List.find?_cons_of_pos _ (by simp)
    have hchar := find?_foldl_addRow (arrange rowGe
      (mkRows mid p.timestamp p.sequence db.next_id rds)) [] s.timestamp
    simp only [List.find?_nil] at hchar
    have hmatch := hchar.symm.trans hfound
    cases hfr : (arrange rowGe (mkRows mid p.timestamp p.sequence db.next_id
        rds)).find? (fun x => x.timestamp == s.timestamp) with
    | none =>
      rw [hfr] at hmatch
      simp at hmatch
    | some r0 =>
      rw [hfr] at hmatch
      have hinj := Option.some.inj hmatch
      have hreadings : s.readings = ((arrange rowGe (mkRows mid p.timestamp
          p.sequence db.next_id rds)).filter
          (fun x => x.timestamp == s.timestamp)).map rowReading := by
        rw [← hinj]
      have hfiltall : (arrange rowGe (mkRows mid p.timestamp p.sequence db.next_id
          rds)).filter (fun x => x.timestamp == s.timestamp) =
          arrange rowGe (mkRows mid p.timestamp p.sequence db.next_id rds) :=
        List.filter_eq_self.mpr fun x hx =>
          beq_iff_eq.mpr ((hts x hx).trans hsts.symm)
      rw [hreadings, hfiltall]
      have hpm : List.Perm ((arrange rowGe (mkRows mid p.timestamp p.sequence
          db.next_id rds)).map rowReading) rds := by
        have hp := hperm.map rowReading
        rwa [mkRows_map_rowReading] at hp
      exact hpm.mem_iff.mpr hrmem

/-- C1 witness: the two-reading demo payload ingested into the empty
store and queried back. -/
theorem ingest_then_latest_witness :
    (postMeterReadings emptyDB demoPayload 50).1 = .success 2 ∧
    ∃ s : Sample,
      getLatestHandler (postMeterReadings emptyDB demoPayload 50).2 "M1" 1 = .ok [s] ∧
      s.timestamp = demoPayload.timestamp ∧
      ∀ r ∈ [({ obis_code := "1.0.1.7.0.255", description := "Active power+",
                value := 1250, unit := "W", scaler := 0 } : Reading),
             { obis_code := "1.0.32.7.0.255", description := "Voltage L1",
               value := 230, unit := "V", scaler := 0 }],
        r ∈ s.readings :=
  ingest_then_latest emptyDB demoPayload 50 "M1"
    [{ obis_code := "1.0.1.7.0.255", description := "Active power+",
       value := 1250, unit := "W", scaler := 0 },
     { obis_code := "1.0.32.7.0.255", description := "Voltage L1",
       value := 230, unit := "V", scaler := 0 }]
    rfl (by decide) rfl rfl (by decide) (by decide) (by decide)

/-! ### The daily aggregate -/

theorem windowRows_idem (rows : List ReadingRow) (now : Nat) :
    windowRows (windowRows rows now) now = windowRows rows now := by
  unfold windowRows
  rw [List.filter_filter]
  simp

/-- C9: the daily aggregate depends only on rows within the trailing
7-day window, is ordered most-recent-date first, and reports per
calendar date the in-window row count and the average of `value` over
that date's active-power rows — `none` rather than `0` when the date has
no active-power row. -/
theorem dailyAggregate_spec (rows : List ReadingRow) (now : Nat) :
    dailyAggregate rows now = dailyAggregate (windowRows rows now) now ∧
    (dailyAggregate rows now).Pairwise (fun e e' => e'.date < e.date) ∧
    ∀ e ∈ dailyAggregate rows now,
      (∃ r ∈ rows, now - 7 * 86400 ≤ r.timestamp ∧ dateOf r.timestamp = e.date) ∧
      e.reading_count = (dateRows rows now e.date).length ∧
      e.avg_power = (if (dateActiveRows rows now e.date).isEmpty then none
                     else some (((dateActiveRows rows now e.date).map
                         fun r => r.value).sum /
                       ((dateActiveRows rows now e.date).length : ℚ))) ∧
      (dateActiveRows rows now e.date = [] → e.avg_power = none) := by
  have hA : dailyAggregate (windowRows rows now) now = dailyAggregate rows now := by
    unfold dailyAggregate dateActiveRows dateRows
    rw [windowRows_idem]
  have hnodup : (addKeys []
      ((windowRows rows now).map fun r => dateOf r.timestamp)).Nodup :=
    nodup_addKeys _ [] List.nodup_nil
  have hsorted : (arrange natGe (addKeys []
      ((windowRows rows now).map fun r => dateOf r.timestamp))).Pairwise
      (fun a b => natGe a b = true) :=
    pairwise_arrange natGe_total natGe_trans _
  have hnodup2 : (arrange natGe (addKeys []
      ((windowRows rows now).map fun r => dateOf r.timestamp))).Nodup :=
    ((perm_arrange natGe _).nodup_iff).mpr hnodup
  have hgt : (arrange natGe (addKeys []
      ((windowRows rows now).map fun r => dateOf r.timestamp))).Pairwise
      (fun a b => b < a) := by
    have hand := List.Pairwise.and hsorted hnodup2
    refine List.Pairwise.imp ?_ hand
    intro a b hab
    have hle : b ≤ a := by
      have := hab.1
      unfold natGe at this
      exact of_decide_eq_true this
    exact Nat.lt_of_le_of_ne hle fun he => hab.2 he.symm
  have hB : (dailyAggregate rows now).Pairwise (fun e e' => e'.date < e.date) := by
    unfold dailyAggregate
    rw [List.pairwise_map]
    exact List.Pairwise.imp (fun h => h) hgt
  refine ⟨hA.symm, hB, ?_⟩
  intro e he
  unfold dailyAggregate at he
  obtain ⟨d, hd, rfl⟩ := List.mem_map.mp he
  refine ⟨?_, rfl, rfl, ?_⟩
  · have hd' : d ∈ addKeys []
        ((windowRows rows now).map fun r => dateOf r.timestamp) :=
      (perm_arrange natGe _).mem_iff.mp hd
    rcases (mem_addKeys _ _).mp hd' with h0 | h2
    · cases h0
    · obtain ⟨r, hrw, hrd⟩ := List.mem_map.mp h2
      have hrf := List.mem_filter.mp hrw
      exact ⟨r, hrf.1, of_decide_eq_true hrf.2, hrd⟩
  · intro hact
    have hact2 : dateActiveRows rows now d = [] := hact
    show (if (dateActiveRows rows now d).isEmpty then (none : Option ℚ)
          else some (((dateActiveRows rows now d).map fun r => r.value).sum /
            ((dateActiveRows rows now d).length : ℚ))) = none
    rw [hact2]
    rfl

end DlmsMeterApi
